import Mathlib

/-!
Verification of the animation-layer transfer core of
`AnimationLayersManager.py` (a MotionBuilder tool).

The embedding models the four core components:
  keyframe codec (`serialize_curve` / `deserialize_curve`),
  curve collector (`get_serialized_fcurves`),
  animated-component scan (`get_animated_components` / `has_keys`),
  and the layer transfer engine (`transfer_anim_layers`).

Host objects (pyfbsdk) are modelled as plain data: an FCurve is the list
of its keys ordered by time; `FBFCurve.KeyAdd` inserts a key keeping time
order and returns its index (inserting after keys of equal time);
`FBFCurve.EditClear` removes all keys; enumerations are carried through
serialization as their integer values, and an out-of-range integer makes
the `values` lookup fail (surfaced here as a `DecodeError`).
Floating-point values are modelled as exact rationals: the codec copies
them verbatim and performs no arithmetic on them.
-/

set_option autoImplicit false

namespace ALM

/-- Host enumeration `FBInterpolation`. -/
inductive FBInterpolation : Type where
  | kFBInterpolationConstant
  | kFBInterpolationLinear
  | kFBInterpolationCubic
  deriving DecidableEq

/-- Host enumeration `FBTangentMode`; `kFBTangentModeTCB` is the
auto-tangent kind the decoder cannot reconstruct. -/
inductive FBTangentMode : Type where
  | kFBTangentModeAuto
  | kFBTangentModeTCB
  | kFBTangentModeUser
  | kFBTangentModeBreak
  deriving DecidableEq

/-- Host enumeration `FBTangentConstantMode`. -/
inductive FBTangentConstantMode : Type where
  | kFBTangentConstantModeNormal
  | kFBTangentConstantModeNext
  deriving DecidableEq

/-- The integer value stored by `int(key.Interpolation)`. -/
def FBInterpolation.toInt : FBInterpolation → Int
  | .kFBInterpolationConstant => 0
  | .kFBInterpolationLinear => 1
  | .kFBInterpolationCubic => 2

/-- The `FBInterpolation.values` lookup: `none` models the host raising on
an integer outside the enumeration. -/
def FBInterpolation.ofInt : Int → Option FBInterpolation
  | 0 => some .kFBInterpolationConstant
  | 1 => some .kFBInterpolationLinear
  | 2 => some .kFBInterpolationCubic
  | _ => none

/-- The integer value stored by `int(key.TangentMode)`. -/
def FBTangentMode.toInt : FBTangentMode → Int
  | .kFBTangentModeAuto => 0
  | .kFBTangentModeTCB => 1
  | .kFBTangentModeUser => 2
  | .kFBTangentModeBreak => 3

/-- The `FBTangentMode.values` lookup. -/
def FBTangentMode.ofInt : Int → Option FBTangentMode
  | 0 => some .kFBTangentModeAuto
  | 1 => some .kFBTangentModeTCB
  | 2 => some .kFBTangentModeUser
  | 3 => some .kFBTangentModeBreak
  | _ => none

/-- The integer value stored by `int(key.TangentConstantMode)`. -/
def FBTangentConstantMode.toInt : FBTangentConstantMode → Int
  | .kFBTangentConstantModeNormal => 0
  | .kFBTangentConstantModeNext => 1

/-- The `FBTangentConstantMode.values` lookup. -/
def FBTangentConstantMode.ofInt : Int → Option FBTangentConstantMode
  | 0 => some .kFBTangentConstantModeNormal
  | 1 => some .kFBTangentConstantModeNext
  | _ => none

theorem interp_ofInt_toInt (m : FBInterpolation) :
    FBInterpolation.ofInt m.toInt = some m := by cases m <;> rfl

theorem tmode_ofInt_toInt (m : FBTangentMode) :
    FBTangentMode.ofInt m.toInt = some m := by cases m <;> rfl

theorem cmode_ofInt_toInt (m : FBTangentConstantMode) :
    FBTangentConstantMode.ofInt m.toInt = some m := by cases m <;> rfl

/-- One native key of an FCurve, with the seven fields the codec reads and
writes (`time`, `value`, the three enumerated modes, both derivatives and
both tangent weights). -/
structure FBKey : Type where
  Time : Int
  Value : ℚ
  Interpolation : FBInterpolation
  TangentMode : FBTangentMode
  TangentConstantMode : FBTangentConstantMode
  LeftDerivative : ℚ
  RightDerivative : ℚ
  LeftTangentWeight : ℚ
  RightTangentWeight : ℚ
  deriving DecidableEq

/-- One serialized keyframe record, the dictionary built by
`serialize_curve` (integer-encoded enumerations, everything else verbatim). -/
structure KeyData : Type where
  time : Int
  value : ℚ
  interpolation : Int
  tangent_mode : Int
  constant_mode : Int
  left_derivative : ℚ
  right_derivative : ℚ
  left_weight : ℚ
  right_weight : ℚ
  deriving DecidableEq

/-- The record `serialize_curve` emits for one key. -/
def serialize_key (key : FBKey) : KeyData :=
  { time := key.Time
    value := key.Value
    interpolation := key.Interpolation.toInt
    tangent_mode := key.TangentMode.toInt
    constant_mode := key.TangentConstantMode.toInt
    left_derivative := key.LeftDerivative
    right_derivative := key.RightDerivative
    left_weight := key.LeftTangentWeight
    right_weight := key.RightTangentWeight }

/-- `serialize_curve`: one record per key of the curve, in curve order. -/
def serialize_curve (fcurve : List FBKey) : List KeyData :=
  fcurve.map serialize_key

/-- `tangent_weight_is_default`: whether a stored weight equals the default
1/3 up to floating-point precision, the exact band of the source:
`0.3333 < tangent_weight < 0.3334`. -/
def tangent_weight_is_default (tangent_weight : ℚ) : Bool :=
  decide ((0.3333 : ℚ) < tangent_weight) && decide (tangent_weight < (0.3334 : ℚ))

/-- Errors reported by the decoder when a stored enumeration value is
outside the known range (the host `values` lookup fails). -/
inductive DecodeError : Type where
  | unknownInterpolation (v : Int)
  | unknownTangentMode (v : Int)
  | unknownConstantMode (v : Int)
  deriving DecidableEq

/-- The key the host creates for `KeyAdd(time, value)` before the decoder
sets any of its properties: host defaults everywhere else, in particular
the default tangent weight 1/3. -/
def newKey (t : Int) (v : ℚ) : FBKey :=
  { Time := t
    Value := v
    Interpolation := .kFBInterpolationCubic
    TangentMode := .kFBTangentModeAuto
    TangentConstantMode := .kFBTangentConstantModeNormal
    LeftDerivative := 0
    RightDerivative := 0
    LeftTangentWeight := 1 / 3
    RightTangentWeight := 1 / 3 }

/-- Host model of `FBFCurve.KeyAdd`: insert a fresh key keeping the list
ordered by time (after existing keys of equal time) and return the new
key's index. -/
def keyAdd : List FBKey → Int → ℚ → List FBKey × Nat
  | [], t, v => ([newKey t v], 0)
  | k :: ks, t, v =>
    if t < k.Time then (newKey t v :: k :: ks, 0)
    else
      let p := keyAdd ks t v
      (k :: p.1, p.2 + 1)

/-- Replace the key at an index by applying `f` to it (models the decoder
reading `fcurve.Keys[key_index]` and assigning its properties). -/
def modifyAt (f : FBKey → FBKey) : List FBKey → Nat → List FBKey
  | [], _ => []
  | k :: ks, 0 => f k :: ks
  | k :: ks, n + 1 => k :: modifyAt f ks n

/-- One iteration of the decoder's first loop: add the key, then set its
interpolation, tangent mode (downgrading `kFBTangentModeTCB` to
`kFBTangentModeBreak`) and constant mode, failing on an unknown
enumeration value. -/
def apply_key_data (keys : List FBKey) (key_data : KeyData) :
    Except DecodeError (List FBKey) :=
  let p := keyAdd keys key_data.time key_data.value
  match FBInterpolation.ofInt key_data.interpolation with
  | none => .error (.unknownInterpolation key_data.interpolation)
  | some interp =>
    match FBTangentMode.ofInt key_data.tangent_mode with
    | none => .error (.unknownTangentMode key_data.tangent_mode)
    | some tm0 =>
      let tm := if tm0 = FBTangentMode.kFBTangentModeTCB
                then FBTangentMode.kFBTangentModeBreak else tm0
      match FBTangentConstantMode.ofInt key_data.constant_mode with
      | none => .error (.unknownConstantMode key_data.constant_mode)
      | some cm =>
        .ok (modifyAt
          (fun k => { k with Interpolation := interp, TangentMode := tm,
                             TangentConstantMode := cm }) p.1 p.2)

/-- The decoder's first loop over all records. -/
def decodePass1 (keys : List FBKey) : List KeyData → Except DecodeError (List FBKey)
  | [] => .ok keys
  | kd :: kds =>
    match apply_key_data keys kd with
    | .error e => .error e
    | .ok keys1 => decodePass1 keys1 kds

/-- One iteration of the decoder's second loop: set both derivatives, then
set each tangent weight only when the stored value is not in the default
band. -/
def set_key_tangents (key : FBKey) (key_data : KeyData) : FBKey :=
  let k1 := { key with LeftDerivative := key_data.left_derivative,
                       RightDerivative := key_data.right_derivative }
  let k2 := if tangent_weight_is_default key_data.left_weight then k1
            else { k1 with LeftTangentWeight := key_data.left_weight }
  if tangent_weight_is_default key_data.right_weight then k2
  else { k2 with RightTangentWeight := key_data.right_weight }

/-- The decoder's second loop, pairing `fcurve.Keys[i]` with
`key_data_list[i]`. -/
def decodePass2 : List FBKey → List KeyData → List FBKey
  | ks, [] => ks
  | [], _ :: _ => []
  | k :: ks, kd :: kds => set_key_tangents k kd :: decodePass2 ks kds

/-- Host model of `FBFCurve.EditClear`: remove every key. -/
def EditClear (_fcurve : List FBKey) : List FBKey := []

/-- `deserialize_curve`: clear the destination curve, then run the two
decoding passes over the serialized records. -/
def deserialize_curve (fcurve : List FBKey) (key_data_list : List KeyData) :
    Except DecodeError (List FBKey) :=
  match decodePass1 (EditClear fcurve) key_data_list with
  | .error e => .error e
  | .ok keys => .ok (decodePass2 keys key_data_list)

/- ## Curve collector and animated-component scan -/

mutual
/-- A node of a component's `AnimationNode` hierarchy: an identity, an
optional owned FCurve (`none` models `anim_node.FCurve` being null, the
interior-node case) and the child nodes `anim_node.Nodes`. -/
inductive AnimNode : Type where
  | node : Nat → Option (List FBKey) → AnimNodes → AnimNode

/-- The child list of an `AnimNode`. -/
inductive AnimNodes : Type where
  | nil : AnimNodes
  | cons : AnimNode → AnimNodes → AnimNodes
end

/-- The identity of a channel node. -/
def AnimNode.nid : AnimNode → Nat
  | .node i _ _ => i

/-- The FCurve owned by a channel node, when present. -/
def AnimNode.fcurve : AnimNode → Option (List FBKey)
  | .node _ fc _ => fc

/-- `anim_node.KeyCount`: the number of keys on the node's own FCurve. -/
def AnimNode.keyCount : AnimNode → Nat
  | .node _ (some fc) _ => fc.length
  | .node _ none _ => 0

mutual
/-- `has_keys`: the node's own key count is positive, or some child has
keys (short-circuiting over the children). -/
def has_keys : AnimNode → Bool
  | .node i fc cs => decide ((AnimNode.node i fc cs).keyCount ≠ 0) || any_has_keys cs

/-- The `for sub_node in anim_node.Nodes` loop of `has_keys`. -/
def any_has_keys : AnimNodes → Bool
  | .nil => false
  | .cons n ns => has_keys n || any_has_keys ns
end

mutual
/-- `fill_props_recursively`: a node owning an FCurve contributes its
serialized curve when the curve has keys; an interior node recurses into
its children. -/
def fill_props_recursively : AnimNode → List (Nat × List KeyData)
  | .node i (some fc) _ =>
    if fc.isEmpty then [] else [(i, serialize_curve fc)]
  | .node _ none cs => fill_props_nodes cs

/-- The `for node in anim_node.Nodes` loop of `fill_props_recursively`. -/
def fill_props_nodes : AnimNodes → List (Nat × List KeyData)
  | .nil => []
  | .cons n ns => fill_props_recursively n ++ fill_props_nodes ns
end

/-- `get_serialized_fcurves`: the channel-identity → serialized-curve
mapping collected from a component's root `AnimationNode`. -/
def get_serialized_fcurves (root : AnimNode) : List (Nat × List KeyData) :=
  fill_props_recursively root

mutual
/-- The leaf channels (nodes owning an FCurve) visited by the collector's
traversal, used to state which channels can appear in its result. -/
def curve_leaves : AnimNode → List AnimNode
  | .node i (some fc) cs => [AnimNode.node i (some fc) cs]
  | .node _ none cs => curve_leaves_nodes cs

/-- The children part of `curve_leaves`. -/
def curve_leaves_nodes : AnimNodes → List AnimNode
  | .nil => []
  | .cons n ns => curve_leaves n ++ curve_leaves_nodes ns
end

/-- A scene component: `AnimationNode = none` models the attribute being
absent for that component type (`AttributeError` on access). -/
structure FBComponent : Type where
  cid : Nat
  AnimationNode : Option AnimNode

/-- The per-component test of `get_animated_components`: the `try` block
succeeds and finds keys; an absent root attribute is caught and skipped. -/
def component_has_keys (comp : FBComponent) : Bool :=
  match comp.AnimationNode with
  | some root => has_keys root
  | none => false

/-- `get_animated_components`: the scene components whose animation-node
hierarchy carries at least one key. -/
def get_animated_components (comps : List FBComponent) : List FBComponent :=
  comps.filter component_has_keys

/- ## Layer transfer engine -/

/-- Host enumeration `FBLayerMode`. -/
inductive FBLayerMode : Type where
  | kFBLayerModeAdditive
  | kFBLayerModeOverride
  | kFBLayerModeOverridePassthrough
  deriving DecidableEq

/-- Host enumeration `FBLayerRotationMode`. -/
inductive FBLayerRotationMode : Type where
  | kFBLayerRotationModeEulerRotation
  | kFBLayerRotationModeQuaternionRotation
  deriving DecidableEq

/-- An animation layer with the attributes the tool reads and writes. -/
structure FBAnimationLayer : Type where
  Name : String
  LayerMode : FBLayerMode
  LayerRotationMode : FBLayerRotationMode
  Weight : ℚ
  Mute : Bool
  deriving DecidableEq

/-- A take: its layer stack, index 0 the base layer, last index the top. -/
structure FBTake : Type where
  Name : String
  layers : List FBAnimationLayer
  deriving DecidableEq

/-- The layer the host appends for `take.CreateNewLayer()`: host defaults,
in particular not muted. -/
def host_default_layer : FBAnimationLayer :=
  { Name := "AnimLayer"
    LayerMode := .kFBLayerModeAdditive
    LayerRotationMode := .kFBLayerRotationModeEulerRotation
    Weight := 100
    Mute := false }

/-- `take.CreateNewLayer()`: append a fresh default layer at the top. -/
def create_new_layer (t : FBTake) : FBTake :=
  { t with layers := t.layers ++ [host_default_layer] }

/-- The four attribute assignments of the replay loop: copy `Name`,
`LayerMode`, `LayerRotationMode` and `Weight` from the source layer onto
the new layer (and nothing else). -/
def copy_layer_attrs (dst src : FBAnimationLayer) : FBAnimationLayer :=
  { dst with Name := src.Name, LayerMode := src.LayerMode,
             LayerRotationMode := src.LayerRotationMode, Weight := src.Weight }

/-- Replace the top layer of a take (writing back the configured layer
obtained from `take.GetLayer(layerCount - 1)`). -/
def set_last_layer (t : FBTake) (l : FBAnimationLayer) : FBTake :=
  { t with layers := t.layers.dropLast ++ [l] }

/-- The per-layer record `{'layer': ..., 'curves': ...}` collected for one
checked source layer. -/
structure LayerData : Type where
  layer : FBAnimationLayer
  curves : List (Nat × List KeyData)

/-- The order in which `reload_src_tree` lists a take's layers as tree
children: `xrange(num_layers - 1, -1, -1)`, i.e. the reverse of the
bottom-to-top stack. -/
def src_tree_children (t : FBTake) : List FBAnimationLayer :=
  t.layers.reverse

/-- The collection loop over a take's child nodes: for each checked layer,
select it and capture the merged channel → serialized-curve mapping
(`capture` stands for the scan plus collector against the host scene with
that layer active). -/
def collect_checked_layers (children : List FBAnimationLayer)
    (checked : FBAnimationLayer → Bool)
    (capture : FBAnimationLayer → List (Nat × List KeyData)) : List LayerData :=
  (children.filter checked).map (fun l => { layer := l, curves := capture l })

/-- Errors arising while replaying curves on a destination. -/
inductive TransferError : Type where
  | unresolvedChannel (nid : Nat)
  | malformedInput (nid : Nat) (e : DecodeError)
  deriving DecidableEq

/-- The replay of one layer's captured curves onto the destination:
`resolve` yields the destination channel's FCurve for an identity, `none`
modelling `anim_node.FCurve` being unavailable there.  Returns the writes
performed, and the error that aborted the loop if one occurred — a raised
host exception propagates, so nothing after the failing channel is
written. -/
def replay_curves (resolve : Nat → Option (List FBKey)) :
    List (Nat × List KeyData) → List (Nat × List FBKey) × Option TransferError
  | [] => ([], none)
  | (nid, kds) :: rest =>
    match resolve nid with
    | none => ([], some (.unresolvedChannel nid))
    | some fc =>
      match deserialize_curve fc kds with
      | .error e => ([], some (.malformedInput nid e))
      | .ok fc2 =>
        let p := replay_curves resolve rest
        ((nid, fc2) :: p.1, p.2)

/-- Replay one collected layer onto a destination take: create a new top
layer, copy the source layer's attributes onto it, then replay the
captured curves. -/
def replay_layer_on_take (resolve : Nat → Option (List FBKey)) (t : FBTake)
    (ld : LayerData) : FBTake × Option TransferError :=
  let t1 := create_new_layer t
  let new_layer := copy_layer_attrs (t1.layers.getLastD host_default_layer) ld.layer
  let t2 := set_last_layer t1 new_layer
  (t2, (replay_curves resolve ld.curves).2)

/-- Replay all collected layers, in list order, onto a destination take;
an error aborts the remaining layers. -/
def replay_layers_on_take (resolve : Nat → Option (List FBKey)) :
    FBTake → List LayerData → FBTake × Option TransferError
  | t, [] => (t, none)
  | t, ld :: lds =>
    let p := replay_layer_on_take resolve t ld
    match p.2 with
    | some e => (p.1, some e)
    | none => replay_layers_on_take resolve p.1 lds

/-- `transfer_anim_layers`, specialized to one checked source take and one
checked destination take: collect the checked layers in source-tree child
order, reverse the collected list (`layers_data[::-1]`), then replay onto
the destination. -/
def transfer_to_take (t_src : FBTake) (checked : FBAnimationLayer → Bool)
    (capture : FBAnimationLayer → List (Nat × List KeyData))
    (t_dst : FBTake) (resolve : Nat → Option (List FBKey)) :
    FBTake × Option TransferError :=
  let layers_data := (collect_checked_layers (src_tree_children t_src) checked capture).reverse
  replay_layers_on_take resolve t_dst layers_data

/- ## Codec lemmas -/

/-- All three enumerated fields of a record are in range. -/
def enums_ok (kd : KeyData) : Bool :=
  (FBInterpolation.ofInt kd.interpolation).isSome &&
  (FBTangentMode.ofInt kd.tangent_mode).isSome &&
  (FBTangentConstantMode.ofInt kd.constant_mode).isSome

/-- The key produced for one record by the decoder's first loop. -/
def pass1_key (kd : KeyData) : FBKey :=
  { newKey kd.time kd.value with
    Interpolation :=
      (FBInterpolation.ofInt kd.interpolation).getD FBInterpolation.kFBInterpolationCubic
    TangentMode :=
      (if (FBTangentMode.ofInt kd.tangent_mode).getD FBTangentMode.kFBTangentModeAuto
            = FBTangentMode.kFBTangentModeTCB
       then FBTangentMode.kFBTangentModeBreak
       else (FBTangentMode.ofInt kd.tangent_mode).getD FBTangentMode.kFBTangentModeAuto)
    TangentConstantMode :=
      (FBTangentConstantMode.ofInt kd.constant_mode).getD
        FBTangentConstantMode.kFBTangentConstantModeNormal }

/-- The key produced for one record by both decoder loops. -/
def decoded_key (kd : KeyData) : FBKey :=
  set_key_tangents (pass1_key kd) kd

theorem keyAdd_append (t : Int) (v : ℚ) (ks : List FBKey)
    (h : ∀ k ∈ ks, k.Time ≤ t) :
    keyAdd ks t v = (ks ++ [newKey t v], ks.length) := by
  induction ks with
  | nil => rfl
  | cons k ks ih =>
    have hk : ¬ t < k.Time := not_lt.mpr (h k (by simp))
    have hrec := ih (fun a ha => h a (by simp [ha]))
    simp [keyAdd, hk, hrec]

theorem modifyAt_concat (f : FBKey → FBKey) (ks : List FBKey) (k : FBKey) :
    modifyAt f (ks ++ [k]) ks.length = ks ++ [f k] := by
  induction ks with
  | nil => rfl
  | cons a ks ih => simp [modifyAt, ih]

theorem apply_key_data_concat (acc : List FBKey) (kd : KeyData)
    (henum : enums_ok kd = true) (hle : ∀ k ∈ acc, k.Time ≤ kd.time) :
    apply_key_data acc kd = .ok (acc ++ [pass1_key kd]) := by
  rw [enums_ok, Bool.and_eq_true, Bool.and_eq_true] at henum
  obtain ⟨⟨h1, h2⟩, h3⟩ := henum
  obtain ⟨ip, hip⟩ := Option.isSome_iff_exists.mp h1
  obtain ⟨tm, htm⟩ := Option.isSome_iff_exists.mp h2
  obtain ⟨cm, hcm⟩ := Option.isSome_iff_exists.mp h3
  simp only [apply_key_data, keyAdd_append kd.time kd.value acc hle, hip, htm, hcm]
  rw [modifyAt_concat]
  simp [pass1_key, hip, htm, hcm]

theorem pass1_key_time (kd : KeyData) : (pass1_key kd).Time = kd.time := rfl

theorem decodePass1_ok (kds : List KeyData) :
    ∀ acc : List FBKey,
    List.Pairwise (fun a b => a.time ≤ b.time) kds →
    (∀ kd ∈ kds, enums_ok kd = true) →
    (∀ k ∈ acc, ∀ kd ∈ kds, k.Time ≤ kd.time) →
    decodePass1 acc kds = .ok (acc ++ kds.map pass1_key) := by
  induction kds with
  | nil => intro acc _ _ _; simp [decodePass1]
  | cons kd kds ih =>
    intro acc hp he hle
    rw [List.pairwise_cons] at hp
    have h1 : apply_key_data acc kd = .ok (acc ++ [pass1_key kd]) :=
      apply_key_data_concat acc kd (he kd (by simp)) (fun k hk => hle k hk kd (by simp))
    have hle2 : ∀ k ∈ acc ++ [pass1_key kd], ∀ kd2 ∈ kds, k.Time ≤ kd2.time := by
      intro k hk kd2 hkd2
      rcases List.mem_append.mp hk with hm | hm
      · exact hle k hm kd2 (by simp [hkd2])
      · have hek : k = pass1_key kd := by simpa using hm
        rw [hek, pass1_key_time]
        exact hp.1 kd2 hkd2
    have h2 := ih (acc ++ [pass1_key kd]) hp.2 (fun a ha => he a (by simp [ha])) hle2
    simp only [decodePass1, h1, h2, List.map_cons, List.append_assoc,
      List.singleton_append]

theorem decodePass2_map (kds : List KeyData) :
    decodePass2 (kds.map pass1_key) kds = kds.map decoded_key := by
  induction kds with
  | nil => rfl
  | cons kd kds ih => simp [decodePass2, decoded_key, ih]

theorem deserialize_curve_ok (fc : List FBKey) (kds : List KeyData)
    (hp : List.Pairwise (fun a b => a.time ≤ b.time) kds)
    (he : ∀ kd ∈ kds, enums_ok kd = true) :
    deserialize_curve fc kds = .ok (kds.map decoded_key) := by
  have h1 := decodePass1_ok kds [] hp he (by simp)
  simp only [List.nil_append] at h1
  simp [deserialize_curve, EditClear, h1, decodePass2_map]

theorem apply_key_data_err (acc : List FBKey) (kd : KeyData) :
    (∃ e, apply_key_data acc kd = .error e) ↔ enums_ok kd = false := by
  unfold apply_key_data enums_ok
  cases FBInterpolation.ofInt kd.interpolation <;>
    cases FBTangentMode.ofInt kd.tangent_mode <;>
      cases FBTangentConstantMode.ofInt kd.constant_mode <;> simp

theorem decodePass1_err (kds : List KeyData) :
    ∀ acc : List FBKey,
    ((∃ e, decodePass1 acc kds = .error e) ↔ ∃ kd ∈ kds, enums_ok kd = false) := by
  induction kds with
  | nil => intro acc; simp [decodePass1]
  | cons kd kds ih =>
    intro acc
    cases hA : apply_key_data acc kd with
    | error e =>
      have hf : enums_ok kd = false := (apply_key_data_err acc kd).mp ⟨e, hA⟩
      simp only [decodePass1, hA]
      constructor
      · intro _; exact ⟨kd, by simp, hf⟩
      · intro _; exact ⟨e, rfl⟩
    | ok ks =>
      have henum : ¬ enums_ok kd = false := by
        intro hf
        obtain ⟨e, he⟩ := (apply_key_data_err acc kd).mpr hf
        rw [hA] at he
        exact Except.noConfusion he
      simp only [decodePass1, hA]
      rw [ih ks]
      constructor
      · rintro ⟨kd2, hmem, hf⟩
        exact ⟨kd2, List.mem_cons_of_mem _ hmem, hf⟩
      · rintro ⟨kd2, hmem, hf⟩
        rcases List.mem_cons.mp hmem with hq | hmem2
        · exact absurd (hq ▸ hf) henum
        · exact ⟨kd2, hmem2, hf⟩

theorem deserialize_curve_err (fc : List FBKey) (kds : List KeyData) :
    (∃ e, deserialize_curve fc kds = .error e) ↔ ∃ kd ∈ kds, enums_ok kd = false := by
  rw [← decodePass1_err kds []]
  unfold deserialize_curve EditClear
  cases h : decodePass1 [] kds <;> simp [h]

theorem enums_ok_false_iff (kd : KeyData) :
    enums_ok kd = false ↔
      (FBInterpolation.ofInt kd.interpolation = none ∨
       FBTangentMode.ofInt kd.tangent_mode = none ∨
       FBTangentConstantMode.ofInt kd.constant_mode = none) := by
  unfold enums_ok
  cases FBInterpolation.ofInt kd.interpolation <;>
    cases FBTangentMode.ofInt kd.tangent_mode <;>
      cases FBTangentConstantMode.ofInt kd.constant_mode <;> simp

theorem set_key_tangents_spec (k : FBKey) (kd : KeyData) :
    (set_key_tangents k kd).LeftTangentWeight =
      (if tangent_weight_is_default kd.left_weight then k.LeftTangentWeight
       else kd.left_weight) ∧
    (set_key_tangents k kd).RightTangentWeight =
      (if tangent_weight_is_default kd.right_weight then k.RightTangentWeight
       else kd.right_weight) ∧
    (set_key_tangents k kd).TangentMode = k.TangentMode := by
  unfold set_key_tangents
  cases h1 : tangent_weight_is_default kd.left_weight <;>
    cases h2 : tangent_weight_is_default kd.right_weight <;> simp [h1, h2]

theorem decoded_serialize_key (k : FBKey)
    (hm : k.TangentMode ≠ FBTangentMode.kFBTangentModeTCB)
    (hl : tangent_weight_is_default k.LeftTangentWeight = false)
    (hr : tangent_weight_is_default k.RightTangentWeight = false) :
    decoded_key (serialize_key k) = k := by
  obtain ⟨t, v, ip, tm, cm, d1, d2, w1, w2⟩ := k
  simp only [serialize_key] at hl hr hm
  simp [decoded_key, pass1_key, set_key_tangents, newKey, serialize_key,
    interp_ofInt_toInt, tmode_ofInt_toInt,
    cmode_ofInt_toInt, hl, hr, hm]

theorem decoded_key_tangentMode (kd : KeyData) :
    (decoded_key kd).TangentMode =
      (if (FBTangentMode.ofInt kd.tangent_mode).getD FBTangentMode.kFBTangentModeAuto
            = FBTangentMode.kFBTangentModeTCB
       then FBTangentMode.kFBTangentModeBreak
       else (FBTangentMode.ofInt kd.tangent_mode).getD FBTangentMode.kFBTangentModeAuto) := by
  unfold decoded_key
  rw [(set_key_tangents_spec (pass1_key kd) kd).2.2]
  rfl

theorem remap_ne_TCB (tm : FBTangentMode) :
    (if tm = FBTangentMode.kFBTangentModeTCB then FBTangentMode.kFBTangentModeBreak else tm)
      ≠ FBTangentMode.kFBTangentModeTCB := by
  by_cases h : tm = FBTangentMode.kFBTangentModeTCB <;> simp [h]

/- ## Claim theorems: keyframe codec -/

/-- Claim C1: round-trip identity.  For a curve whose keyframes are in
non-decreasing time order, all carry a supported tangent mode (neither the
TCB auto-tangent kind nor the plain auto kind) and whose tangent weights
lie outside the default-weight band, decoding the serialized records onto
any destination curve reproduces the source keyframes exactly — every
field, the keyframe count and the time order. -/
theorem encode_decode_roundtrip (dst src : List FBKey)
    (hsort : List.Pairwise (fun a b => a.Time ≤ b.Time) src)
    (hmode : ∀ k ∈ src, k.TangentMode ≠ FBTangentMode.kFBTangentModeTCB ∧
                        k.TangentMode ≠ FBTangentMode.kFBTangentModeAuto)
    (hlw : ∀ k ∈ src, tangent_weight_is_default k.LeftTangentWeight = false)
    (hrw : ∀ k ∈ src, tangent_weight_is_default k.RightTangentWeight = false) :
    deserialize_curve dst (serialize_curve src) = Except.ok src := by
  have hp : List.Pairwise (fun a b => a.time ≤ b.time) (serialize_curve src) := by
    unfold serialize_curve
    exact List.pairwise_map.mpr hsort
  have he : ∀ kd ∈ serialize_curve src, enums_ok kd = true := by
    intro kd hkd
    obtain ⟨k, _, rfl⟩ := List.mem_map.mp hkd
    simp [enums_ok, serialize_key, interp_ofInt_toInt,
      tmode_ofInt_toInt, cmode_ofInt_toInt]
  rw [deserialize_curve_ok dst _ hp he]
  unfold serialize_curve
  rw [List.map_map]
  have hmap : ∀ l : List FBKey, (∀ k ∈ l, decoded_key (serialize_key k) = k) →
      l.map (decoded_key ∘ serialize_key) = l := by
    intro l
    induction l with
    | nil => intro _; rfl
    | cons a l ih =>
      intro h
      simp only [List.map_cons, Function.comp_apply, h a (by simp),
        ih (fun k hk => h k (by simp [hk])), List.cons.injEq, and_self]
  rw [hmap src (fun k hk =>
    decoded_serialize_key k (hmode k hk).1 (hlw k hk) (hrw k hk))]

/-- Concrete instance of the round-trip theorem: a two-key cubic curve
with broken tangents and non-default weights decodes back exactly,
replacing a junk key on the destination. -/
theorem encode_decode_roundtrip_witness :
    deserialize_curve [newKey 7 1]
      (serialize_curve
        [{ Time := 0, Value := 0, Interpolation := .kFBInterpolationCubic,
           TangentMode := .kFBTangentModeBreak,
           TangentConstantMode := .kFBTangentConstantModeNormal,
           LeftDerivative := 1, RightDerivative := 2,
           LeftTangentWeight := 1 / 2, RightTangentWeight := 1 / 2 },
         { Time := 24, Value := 10, Interpolation := .kFBInterpolationCubic,
           TangentMode := .kFBTangentModeBreak,
           TangentConstantMode := .kFBTangentConstantModeNormal,
           LeftDerivative := 0, RightDerivative := 0,
           LeftTangentWeight := 2 / 5, RightTangentWeight := 2 / 5 }]) =
      Except.ok
        [{ Time := 0, Value := 0, Interpolation := .kFBInterpolationCubic,
           TangentMode := .kFBTangentModeBreak,
           TangentConstantMode := .kFBTangentConstantModeNormal,
           LeftDerivative := 1, RightDerivative := 2,
           LeftTangentWeight := 1 / 2, RightTangentWeight := 1 / 2 },
         { Time := 24, Value := 10, Interpolation := .kFBInterpolationCubic,
           TangentMode := .kFBTangentModeBreak,
           TangentConstantMode := .kFBTangentConstantModeNormal,
           LeftDerivative := 0, RightDerivative := 0,
           LeftTangentWeight := 2 / 5, RightTangentWeight := 2 / 5 }] :=
  encode_decode_roundtrip _ _ (by decide) (by decide)
    (by
      intro k hk
      simp only [List.mem_cons, List.not_mem_nil, or_false] at hk
      rcases hk with rfl | rfl <;> norm_num [tangent_weight_is_default])
    (by
      intro k hk
      simp only [List.mem_cons, List.not_mem_nil, or_false] at hk
      rcases hk with rfl | rfl <;> norm_num [tangent_weight_is_default])

/-- Claim C9: decode fully replaces the destination.  The decoded result
never depends on the destination curve's prior keys, and decoding an
empty record list leaves the curve with zero keys. -/
theorem decode_replaces_destination (fc fc2 : List FBKey) (kds : List KeyData) :
    deserialize_curve fc kds = deserialize_curve fc2 kds ∧
    deserialize_curve fc [] = Except.ok [] :=
  ⟨rfl, rfl⟩

/-- Claim C3 counterexample: the claim places 0.3333 itself inside the
suppression band (interval closed at 0.3333), but the source predicate is
strictly greater-than, so 0.3333 is not default and its weight is written
verbatim by the second decoding pass. -/
theorem default_weight_band_boundary_counterexample :
    ¬ (tangent_weight_is_default (0.3333 : ℚ) = true ↔
        ((0.3333 : ℚ) ≤ (0.3333 : ℚ) ∧ (0.3333 : ℚ) < (0.3334 : ℚ))) ∧
    (set_key_tangents (newKey 0 0)
        { time := 0, value := 0, interpolation := 2, tangent_mode := 3,
          constant_mode := 0, left_derivative := 0, right_derivative := 0,
          left_weight := 0.3333, right_weight := 0.3333 }).LeftTangentWeight
      = (0.3333 : ℚ) := by
  have hb : tangent_weight_is_default (0.3333 : ℚ) = false := by
    norm_num [tangent_weight_is_default]
  constructor
  · intro h
    have hc := h.mpr (by norm_num)
    rw [hb] at hc
    exact Bool.false_ne_true hc
  · simp [set_key_tangents, hb]

/-- Claim C3 (amended): the default-weight predicate holds exactly on the
open interval `0.3333 < w < 0.3334`, and the second decoding pass leaves a
weight in that band untouched while writing any other weight verbatim. -/
theorem default_weight_band_amended (w : ℚ) (k : FBKey) (kd : KeyData) :
    (tangent_weight_is_default w = true ↔ ((0.3333 : ℚ) < w ∧ w < (0.3334 : ℚ))) ∧
    (set_key_tangents k kd).LeftTangentWeight =
      (if tangent_weight_is_default kd.left_weight then k.LeftTangentWeight
       else kd.left_weight) ∧
    (set_key_tangents k kd).RightTangentWeight =
      (if tangent_weight_is_default kd.right_weight then k.RightTangentWeight
       else kd.right_weight) := by
  refine ⟨?_, (set_key_tangents_spec k kd).1, (set_key_tangents_spec k kd).2.1⟩
  simp [tangent_weight_is_default]

/-- Claim C4: tangent downgrade.  When decoding succeeds on time-ordered
records, no produced keyframe carries the TCB auto-tangent mode, and the
keyframe produced for each record carries the stored tangent mode
unchanged unless that mode is TCB, in which case it carries the
manual/broken mode. -/
theorem decode_tangent_downgrade (fc : List FBKey) (kds : List KeyData) (out : List FBKey)
    (hsort : List.Pairwise (fun a b => a.time ≤ b.time) kds)
    (h : deserialize_curve fc kds = Except.ok out) :
    (∀ k ∈ out, k.TangentMode ≠ FBTangentMode.kFBTangentModeTCB) ∧
    (∀ i kd, kds[i]? = some kd →
      ∀ tm, FBTangentMode.ofInt kd.tangent_mode = some tm →
      (out.getD i (newKey 0 0)).TangentMode =
        (if tm = FBTangentMode.kFBTangentModeTCB then FBTangentMode.kFBTangentModeBreak
         else tm)) := by
  have he : ∀ kd ∈ kds, enums_ok kd = true := by
    intro kd hkd
    cases hb : enums_ok kd
    · exfalso
      obtain ⟨e, he2⟩ := (deserialize_curve_err fc kds).mpr ⟨kd, hkd, hb⟩
      rw [h] at he2
      exact Except.noConfusion he2
    · rfl
  have hout : out = kds.map decoded_key := by
    have h2 := deserialize_curve_ok fc kds hsort he
    rw [h] at h2
    exact Except.ok.inj h2
  subst hout
  constructor
  · intro k hk
    obtain ⟨kd, hkd, rfl⟩ := List.mem_map.mp hk
    rw [decoded_key_tangentMode]
    exact remap_ne_TCB _
  · intro i kd hget tm htm
    have hgd : (kds.map decoded_key).getD i (newKey 0 0) = decoded_key kd := by
      rw [List.getD_eq_getElem?_getD, List.getElem?_map, hget]
      rfl
    rw [hgd, decoded_key_tangentMode, htm]
    rfl

/-- A record storing the TCB auto-tangent mode (integer 1). -/
def c4_rec : KeyData :=
  { time := 0, value := 0, interpolation := 2, tangent_mode := 1, constant_mode := 0,
    left_derivative := 0, right_derivative := 0, left_weight := 2, right_weight := 2 }

/-- The key the decoder produces for `c4_rec`. -/
def c4_key : FBKey :=
  { Time := 0, Value := 0, Interpolation := .kFBInterpolationCubic,
    TangentMode := .kFBTangentModeBreak,
    TangentConstantMode := .kFBTangentConstantModeNormal,
    LeftDerivative := 0, RightDerivative := 0,
    LeftTangentWeight := 2, RightTangentWeight := 2 }

/-- Concrete instance of the downgrade theorem: a record stored with the
TCB mode decodes to a keyframe with the broken mode. -/
theorem decode_tangent_downgrade_witness :
    (([c4_key] : List FBKey).getD 0 (newKey 0 0)).TangentMode
      = FBTangentMode.kFBTangentModeBreak := by
  have hw : tangent_weight_is_default (2 : ℚ) = false := by
    norm_num [tangent_weight_is_default]
  have hok : deserialize_curve [] [c4_rec] = Except.ok [c4_key] := by
    simp [deserialize_curve, EditClear, decodePass1, apply_key_data, keyAdd, modifyAt,
      decodePass2, set_key_tangents, newKey, c4_rec, c4_key, hw,
      FBInterpolation.ofInt, FBTangentMode.ofInt, FBTangentConstantMode.ofInt]
  have h := (decode_tangent_downgrade [] [c4_rec] [c4_key]
      (by simp) hok).2 0 c4_rec rfl FBTangentMode.kFBTangentModeTCB rfl
  simpa using h

/-- Claim C5 (amended): decode reports an error exactly when some record
stores an interpolation, tangent-mode or constant-mode value outside the
known range of its enumeration; time ordering is never checked and plays
no part in whether decode fails. -/
theorem decode_error_iff_unknown_enum (fc : List FBKey) (kds : List KeyData) :
    (∃ e, deserialize_curve fc kds = Except.error e) ↔
      ∃ kd ∈ kds,
        (FBInterpolation.ofInt kd.interpolation = none ∨
         FBTangentMode.ofInt kd.tangent_mode = none ∨
         FBTangentConstantMode.ofInt kd.constant_mode = none) := by
  rw [deserialize_curve_err]
  constructor
  · rintro ⟨kd, hmem, hf⟩
    exact ⟨kd, hmem, (enums_ok_false_iff kd).mp hf⟩
  · rintro ⟨kd, hmem, hf⟩
    exact ⟨kd, hmem, (enums_ok_false_iff kd).mpr hf⟩

/-- A well-enumerated record at a given time. -/
def c5_rec (t : Int) : KeyData :=
  { time := t, value := 0, interpolation := 2, tangent_mode := 3, constant_mode := 0,
    left_derivative := 0, right_derivative := 0, left_weight := 2, right_weight := 2 }

/-- The key the decoder produces for `c5_rec t`. -/
def c5_key (t : Int) : FBKey :=
  { Time := t, Value := 0, Interpolation := .kFBInterpolationCubic,
    TangentMode := .kFBTangentModeBreak,
    TangentConstantMode := .kFBTangentConstantModeNormal,
    LeftDerivative := 0, RightDerivative := 0,
    LeftTangentWeight := 2, RightTangentWeight := 2 }

/-- Claim C5 counterexample: a record list that is not ordered by time
(5 before 0) is decoded without any error — the decoder silently accepts
it (the host insert re-sorts the keys), instead of reporting a malformed
input as the claim requires. -/
theorem decode_accepts_unordered_counterexample :
    deserialize_curve [] [c5_rec 5, c5_rec 0] = Except.ok [c5_key 0, c5_key 5] ∧
    ¬ ((c5_rec 5).time ≤ (c5_rec 0).time) := by
  have hw : tangent_weight_is_default (2 : ℚ) = false := by
    norm_num [tangent_weight_is_default]
  constructor
  · simp [deserialize_curve, EditClear, decodePass1, apply_key_data, keyAdd, modifyAt,
      decodePass2, set_key_tangents, newKey, c5_rec, c5_key, hw,
      FBInterpolation.ofInt, FBTangentMode.ofInt, FBTangentConstantMode.ofInt]
  · norm_num [c5_rec]

/- ## Claim theorems: layer transfer engine -/

theorem replay_layer_on_take_take (resolve : Nat → Option (List FBKey))
    (t : FBTake) (ld : LayerData) :
    replay_layer_on_take resolve t ld =
      ({ t with layers := t.layers ++ [copy_layer_attrs host_default_layer ld.layer] },
       (replay_curves resolve ld.curves).2) := by
  simp [replay_layer_on_take, create_new_layer, set_last_layer,
    List.dropLast_concat, List.getLastD_concat]

theorem replay_layers_on_take_ok (resolve : Nat → Option (List FBKey)) :
    ∀ (lds : List LayerData) (t : FBTake),
    (replay_layers_on_take resolve t lds).2 = none →
    (replay_layers_on_take resolve t lds).1.layers =
      t.layers ++ lds.map (fun ld => copy_layer_attrs host_default_layer ld.layer) := by
  intro lds
  induction lds with
  | nil => intro t _; simp [replay_layers_on_take]
  | cons ld lds ih =>
    intro t hok
    rw [replay_layers_on_take, replay_layer_on_take_take] at hok ⊢
    cases h2 : (replay_curves resolve ld.curves).2 with
    | some e =>
      rw [h2] at hok
      simp at hok
    | none =>
      rw [h2] at hok
      simp at hok ⊢
      rw [ih _ hok]
      simp

/-- Claim C10: mute state is not transferred.  Replaying a collected layer
onto a destination take appends exactly one new layer whose name, layer
mode, rotation mode and weight come from the source layer, while its mute
flag is the host default for a freshly created layer, whatever the source
layer's mute flag was. -/
theorem transfer_layer_mute_not_copied (resolve : Nat → Option (List FBKey))
    (t : FBTake) (ld : LayerData) :
    (replay_layer_on_take resolve t ld).1.layers =
      t.layers ++ [{ Name := ld.layer.Name, LayerMode := ld.layer.LayerMode,
                     LayerRotationMode := ld.layer.LayerRotationMode,
                     Weight := ld.layer.Weight, Mute := host_default_layer.Mute }] := by
  rw [replay_layer_on_take_take]
  rfl

/-- Claim C2: multi-layer transfer order and attribute preservation.  With
a source stack `[base, walk, wave]` (bottom to top), `walk` and `wave`
checked, and a destination initially holding only its base layer, a
transfer that completes without error leaves the destination stack
`[dbase, walk, wave]` bottom to top, the two new layers carrying the
source layers' name, mode, rotation mode and weight. -/
theorem multi_layer_transfer_order
    (base walk wave dbase : FBAnimationLayer) (t_src t_dst : FBTake)
    (checked : FBAnimationLayer → Bool)
    (capture : FBAnimationLayer → List (Nat × List KeyData))
    (resolve : Nat → Option (List FBKey))
    (hsrc : t_src.layers = [base, walk, wave])
    (hdst : t_dst.layers = [dbase])
    (hcb : checked base = false) (hcw : checked walk = true)
    (hcv : checked wave = true)
    (hok : (transfer_to_take t_src checked capture t_dst resolve).2 = none) :
    (transfer_to_take t_src checked capture t_dst resolve).1.layers.map
        (fun l => (l.Name, l.LayerMode, l.LayerRotationMode, l.Weight)) =
      [(dbase.Name, dbase.LayerMode, dbase.LayerRotationMode, dbase.Weight),
       (walk.Name, walk.LayerMode, walk.LayerRotationMode, walk.Weight),
       (wave.Name, wave.LayerMode, wave.LayerRotationMode, wave.Weight)] := by
  have hld : (collect_checked_layers (src_tree_children t_src) checked capture).reverse =
      [{ layer := walk, curves := capture walk },
       { layer := wave, curves := capture wave }] := by
    simp [collect_checked_layers, src_tree_children, hsrc, List.filter_cons,
      hcb, hcw, hcv]
  unfold transfer_to_take at hok ⊢
  rw [hld] at hok ⊢
  rw [replay_layers_on_take_ok resolve _ t_dst hok, hdst]
  simp [copy_layer_attrs]

/-- Source take of the concrete transfer scenario. -/
def c2_base : FBAnimationLayer :=
  { Name := "BaseAnimation", LayerMode := .kFBLayerModeAdditive,
    LayerRotationMode := .kFBLayerRotationModeEulerRotation, Weight := 100,
    Mute := false }

/-- A checked override layer of the scenario. -/
def c2_walk : FBAnimationLayer :=
  { Name := "Walk", LayerMode := .kFBLayerModeOverride,
    LayerRotationMode := .kFBLayerRotationModeQuaternionRotation, Weight := 75,
    Mute := true }

/-- A checked additive layer of the scenario. -/
def c2_wave : FBAnimationLayer :=
  { Name := "Wave", LayerMode := .kFBLayerModeAdditive,
    LayerRotationMode := .kFBLayerRotationModeEulerRotation, Weight := 50,
    Mute := false }

/-- The selection of the scenario: `Walk` and `Wave` are checked. -/
def c2_checked (l : FBAnimationLayer) : Bool :=
  l.Name == "Walk" || l.Name == "Wave"

/-- Concrete instance of the transfer-order theorem. -/
theorem multi_layer_transfer_order_witness :
    (transfer_to_take { Name := "T1", layers := [c2_base, c2_walk, c2_wave] }
        c2_checked (fun _ => []) { Name := "T2", layers := [c2_base] }
        (fun _ => none)).1.layers.map
        (fun l => (l.Name, l.LayerMode, l.LayerRotationMode, l.Weight)) =
      [("BaseAnimation", FBLayerMode.kFBLayerModeAdditive,
        FBLayerRotationMode.kFBLayerRotationModeEulerRotation, (100 : ℚ)),
       ("Walk", FBLayerMode.kFBLayerModeOverride,
        FBLayerRotationMode.kFBLayerRotationModeQuaternionRotation, (75 : ℚ)),
       ("Wave", FBLayerMode.kFBLayerModeAdditive,
        FBLayerRotationMode.kFBLayerRotationModeEulerRotation, (50 : ℚ))] := by
  have h := multi_layer_transfer_order c2_base c2_walk c2_wave c2_base
    { Name := "T1", layers := [c2_base, c2_walk, c2_wave] }
    { Name := "T2", layers := [c2_base] }
    c2_checked (fun _ => []) (fun _ => none) rfl rfl rfl rfl rfl rfl
  simpa [c2_base, c2_walk, c2_wave] using h

/-- A captured payload naming channels 1 and 2. -/
def c6_payload : List (Nat × List KeyData) := [(1, []), (2, [])]

/-- A destination on which channel 2 resolves but channel 1 does not. -/
def c6_resolve : Nat → Option (List FBKey) :=
  fun n => if n = 2 then some [] else none

/-- Claim C6 evidence: when channel 1 of the payload cannot be resolved on
the destination, the replay stops at once with the unresolved-channel
error and writes nothing — channel 2, although resolvable, is never
written, so the batch is aborted rather than isolated per channel. -/
theorem transfer_aborts_on_unresolved_channel :
    replay_curves c6_resolve c6_payload =
      ([], some (TransferError.unresolvedChannel 1)) ∧
    c6_resolve 2 = some [] := by
  constructor
  · rfl
  · rfl

/- ## Claim theorems: curve collector and component scan -/

/-- An entry of the collector's result originates from one of the given
leaf channels, whose owned curve is non-empty. -/
def collect_entry_spec (ls : List AnimNode) (p : Nat × List KeyData) : Prop :=
  ∃ n ∈ ls, ∃ ks, n.fcurve = some ks ∧ ks ≠ [] ∧ p = (n.nid, serialize_curve ks)

theorem collect_entry_spec_nil (p : Nat × List KeyData) :
    collect_entry_spec [] p ↔ False := by
  simp [collect_entry_spec]

theorem collect_entry_spec_append (a b : List AnimNode) (p : Nat × List KeyData) :
    collect_entry_spec (a ++ b) p ↔ collect_entry_spec a p ∨ collect_entry_spec b p := by
  unfold collect_entry_spec
  constructor
  · rintro ⟨n, hmem, hrest⟩
    rcases List.mem_append.mp hmem with hm | hm
    · exact Or.inl ⟨n, hm, hrest⟩
    · exact Or.inr ⟨n, hm, hrest⟩
  · rintro (⟨n, hm, hrest⟩ | ⟨n, hm, hrest⟩)
    · exact ⟨n, List.mem_append.mpr (Or.inl hm), hrest⟩
    · exact ⟨n, List.mem_append.mpr (Or.inr hm), hrest⟩

theorem fill_props_mem : ∀ (root : AnimNode) (p : Nat × List KeyData),
    p ∈ fill_props_recursively root ↔ collect_entry_spec (curve_leaves root) p := by
  refine @AnimNode.rec
    (fun root => ∀ p, p ∈ fill_props_recursively root ↔
      collect_entry_spec (curve_leaves root) p)
    (fun ns => ∀ p, p ∈ fill_props_nodes ns ↔
      collect_entry_spec (curve_leaves_nodes ns) p)
    ?_ ?_ ?_
  · intro i fc cs ih p
    cases fc with
    | none =>
      rw [fill_props_recursively, curve_leaves]
      exact ih p
    | some ks =>
      rw [fill_props_recursively, curve_leaves]
      cases hE : ks.isEmpty with
      | true =>
        have hks : ks = [] := List.isEmpty_iff.mp hE
        subst hks
        simp [collect_entry_spec, AnimNode.fcurve]
      | false =>
        have hks : ks ≠ [] := by
          intro hc
          subst hc
          simp at hE
        simp only [hE, Bool.false_eq_true, if_false]
        constructor
        · intro hp
          have hpe : p = (i, serialize_curve ks) := by simpa using hp
          exact ⟨AnimNode.node i (some ks) cs, by simp,
            ks, rfl, hks, by simpa [AnimNode.nid] using hpe⟩
        · rintro ⟨n, hmem, ks2, hfc, hne, hpe⟩
          have hn : n = AnimNode.node i (some ks) cs := by simpa using hmem
          subst hn
          have hks2 : ks2 = ks := by
            have := hfc
            simp [AnimNode.fcurve] at this
            exact this.symm
          subst hks2
          simp [hpe, AnimNode.nid]
  · intro p
    rw [fill_props_nodes, curve_leaves_nodes]
    simp [collect_entry_spec]
  · intro n ns ih1 ih2 p
    rw [fill_props_nodes, curve_leaves_nodes]
    rw [List.mem_append, collect_entry_spec_append]
    exact or_congr (ih1 p) (ih2 p)

/-- Claim C7: empty-curve omission in the collector.  A pair appears in
`get_serialized_fcurves` exactly when some leaf channel reached by the
traversal owns a curve with at least one keyframe, and the pair is that
channel's identity with its serialized curve — a channel with an empty
curve, or with no curve at all, never contributes an entry. -/
theorem collect_includes_iff_nonempty_curve (root : AnimNode) (p : Nat × List KeyData) :
    p ∈ get_serialized_fcurves root ↔
      ∃ n ∈ curve_leaves root, ∃ ks, n.fcurve = some ks ∧ ks ≠ [] ∧
        p = (n.nid, serialize_curve ks) := by
  rw [get_serialized_fcurves, fill_props_mem root p]
  rfl

/-- Claim C8: the animated-component scan returns exactly the components
whose root animation node satisfies the recursive has-keys predicate; a
component whose root animation-node attribute is absent is skipped
silently (it is simply not in the result) and the scan is a total
function of the component list. -/
theorem scan_filters_by_has_keys (comps : List FBComponent) (c : FBComponent) :
    c ∈ get_animated_components comps ↔
      (c ∈ comps ∧ ∃ root, c.AnimationNode = some root ∧ has_keys root = true) := by
  unfold get_animated_components
  rw [List.mem_filter]
  constructor
  · rintro ⟨hm, hp⟩
    refine ⟨hm, ?_⟩
    unfold component_has_keys at hp
    cases hA : c.AnimationNode with
    | none =>
      rw [hA] at hp
      exact Bool.noConfusion hp
    | some root =>
      rw [hA] at hp
      exact ⟨root, rfl, hp⟩
  · rintro ⟨hm, root, hA, hk⟩
    refine ⟨hm, ?_⟩
    unfold component_has_keys
    rw [hA]
    exact hk

end ALM
